import Mathlib

/-!
Verification of the khmercoders-bot community-activity tracker.

The TypeScript sources are shallowly embedded: JavaScript strings become
`List Char`, JavaScript numbers on the relevant paths become `Int` (the
values flowing through these paths are integers or `NaN`, the latter
modelled as `Option.none`), the D1 database becomes an explicit record of
rows, and each fallible operation returns `Except` together with the list
of SQL statements it executed.
-/

/-- JavaScript strings, embedded as lists of characters. -/
abbrev JSStr := List Char

/-! ### Rate limiter (`src/utils/security-helpers.ts`, class `RateLimiter`)

The `Map<string, number[]>` of request timestamps is embedded as a
function from keys to timestamp lists; a key absent from the map reads as
`[]`, matching `this.requests.get(key) || []`.  Timestamps and the window
are `Int` so that `now - timestamp` behaves as JavaScript subtraction.
-/

structure RLConfig where
  maxRequests : Nat
  windowMs : Int

/-- The rate limiter's mutable `requests` map. -/
def RLState := JSStr → List Int

/-- Embeds `RateLimiter.isRateLimited` at instant `now`: filter the key's
timestamps to those inside the window, reject without touching the map if
the count reaches `maxRequests`, otherwise record `now` and accept. -/
def isRateLimited (cfg : RLConfig) (now : Int) (key : JSStr) (m : RLState) :
    Bool × RLState :=
  let userRequests := m key
  let validRequests := userRequests.filter (fun ts => now - ts < cfg.windowMs)
  if cfg.maxRequests ≤ validRequests.length then
    (true, m)
  else
    (false, fun k => if k = key then validRequests ++ [now] else m k)

/-- Embeds `RateLimiter.getRemainingRequests` at instant `now`. -/
def getRemainingRequests (cfg : RLConfig) (now : Int) (key : JSStr) (m : RLState) : Nat :=
  let validRequests := (m key).filter (fun ts => now - ts < cfg.windowMs)
  cfg.maxRequests - validRequests.length

/-- Embeds `RateLimiter.cleanup` at instant `now`: every key's list is filtered to
the window; a key whose list empties is deleted, which reads back as `[]`,
the same as storing the empty list. -/
def cleanup (cfg : RLConfig) (now : Int) (m : RLState) : RLState :=
  fun k => (m k).filter (fun ts => now - ts < cfg.windowMs)

/-- A sequence of `isRateLimited` calls for one key at the given instants,
returning the list of results and the final map. -/
def runSeq (cfg : RLConfig) (key : JSStr) : List Int → RLState → List Bool × RLState
  | [], m => ([], m)
  | t :: ts, m =>
    let r := isRateLimited cfg t key m
    let rest := runSeq cfg key ts r.2
    (r.1 :: rest.1, rest.2)

/-- Point update of the request map, as `this.requests.set(key, v)`. -/
def rlSet (m : RLState) (key : JSStr) (v : List Int) : RLState :=
  fun k => if k = key then v else m k

theorem rlSet_same (m : RLState) (key : JSStr) (v : List Int) :
    rlSet m key v key = v := by
  simp [rlSet]

/-- A run in which every entry of the key stays inside the window and the
capacity is never reached: every call accepts and the timestamps pile up. -/
theorem runSeq_all_accepted (cfg : RLConfig) (key : JSStr) :
    ∀ (ts : List Int) (m : RLState) (pre : List Int),
      m key = pre →
      pre.length + ts.length ≤ cfg.maxRequests →
      (∀ x ∈ pre ++ ts, ∀ t ∈ ts, t - x < cfg.windowMs) →
      (runSeq cfg key ts m).1 = List.replicate ts.length false ∧
        (runSeq cfg key ts m).2 = rlSet m key (pre ++ ts)
  | [], m, pre, hpre, _, _ => by
    constructor
    · rfl
    · funext k
      by_cases hk : k = key <;> simp [runSeq, rlSet, hk, hpre.symm]
  | t :: ts, m, pre, hpre, hlen, hwin => by
    have hfilter : pre.filter (fun x => t - x < cfg.windowMs) = pre := by
      apply List.filter_eq_self.mpr
      intro x hx
      exact decide_eq_true (hwin x (List.mem_append_left _ hx) t (List.mem_cons_self t ts))
    have hnotfull : ¬ cfg.maxRequests ≤ pre.length := by
      have : pre.length + (t :: ts).length ≤ cfg.maxRequests := hlen
      simp [List.length_cons] at this
      omega
    have hstep : isRateLimited cfg t key m = (false, rlSet m key (pre ++ [t])) := by
      simp only [isRateLimited, hpre, hfilter, if_neg hnotfull]
      rfl
    have hrec := runSeq_all_accepted cfg key ts (rlSet m key (pre ++ [t])) (pre ++ [t])
      (rlSet_same _ _ _)
      (by simp at hlen ⊢; omega)
      (by
        intro x hx u hu
        apply hwin x _ u (List.mem_cons_of_mem _ hu)
        rcases List.mem_append.mp hx with h | h
        · rcases List.mem_append.mp h with h' | h'
          · exact List.mem_append_left _ h'
          · simp at h'
            subst h'
            exact List.mem_append_right _ (List.mem_cons_self _ _)
        · exact List.mem_append_right _ (List.mem_cons_of_mem _ h))
    constructor
    · show (runSeq cfg key (t :: ts) m).1 = _
      simp only [runSeq, hstep]
      rw [hrec.1]
      rfl
    · show (runSeq cfg key (t :: ts) m).2 = _
      simp only [runSeq, hstep]
      rw [hrec.2]
      funext k
      by_cases hk : k = key <;> simp [rlSet, hk]

/-- C2 helper: with at least `maxRequests` timestamps inside the window,
`isRateLimited` rejects and returns the map exactly unchanged. -/
theorem isRateLimited_rejects (cfg : RLConfig) (now : Int) (key : JSStr) (m : RLState)
    (hfull : cfg.maxRequests ≤
      ((m key).filter (fun ts => now - ts < cfg.windowMs)).length) :
    isRateLimited cfg now key m = (true, m) := by
  simp only [isRateLimited, if_pos hfull]

/-- C2: after `R = maxRequests` accepted calls for key `k` whose instants all
lie within one window of the later probe `t`, the probe at `t` returns `true`
and leaves the map unchanged; a probe at `t'`, a full window after every
recorded instant, returns `false`. -/
theorem rate_limiter_window_spec (cfg : RLConfig) (key : JSStr)
    (hR : 1 ≤ cfg.maxRequests) (hW : 0 < cfg.windowMs)
    (ts : List Int) (hlen : ts.length = cfg.maxRequests)
    (t t' : Int)
    (hle : ∀ x ∈ ts, x ≤ t)
    (hwin : ∀ x ∈ ts, t - x < cfg.windowMs)
    (hgap : ∀ x ∈ ts, cfg.windowMs ≤ t' - x)
    (m0 : RLState) (h0 : m0 key = []) :
    (runSeq cfg key ts m0).1 = List.replicate cfg.maxRequests false ∧
      (runSeq cfg key ts m0).2 key = ts ∧
      isRateLimited cfg t key (runSeq cfg key ts m0).2 = (true, (runSeq cfg key ts m0).2) ∧
      (isRateLimited cfg t' key (runSeq cfg key ts m0).2).1 = false := by
  have hrun := runSeq_all_accepted cfg key ts m0 [] h0
    (by simp [hlen])
    (by
      intro x hx u hu
      simp at hx
      have h1 : t - x < cfg.windowMs := hwin x hx
      have h2 : u ≤ t := hle u hu
      omega)
  have hstate : (runSeq cfg key ts m0).2 key = ts := by
    rw [hrun.2]
    simp [rlSet]
  refine ⟨by rw [hrun.1, hlen], hstate, ?_, ?_⟩
  · apply isRateLimited_rejects
    rw [hstate]
    have : ts.filter (fun x => t - x < cfg.windowMs) = ts := by
      apply List.filter_eq_self.mpr
      intro x hx
      exact decide_eq_true (hwin x hx)
    rw [this, hlen]
  · have hempty : ts.filter (fun x => t' - x < cfg.windowMs) = [] := by
      apply List.filter_eq_nil_iff.mpr
      intro x hx
      have := hgap x hx
      simp
      omega
    simp only [isRateLimited, hstate, hempty]
    have : ¬ cfg.maxRequests ≤ ([] : List Int).length := by
      simp
      omega
    rw [if_neg this]

/-- C2 witness: a limiter with capacity 2 and window 100; calls at 0 and 10
accept, the probe at 50 is rejected without a state change, and the probe at
300 accepts again. -/
theorem rate_limiter_window_spec_witness :
    (runSeq ⟨2, 100⟩ ['k'] [0, 10] (fun _ => [])).1 = List.replicate 2 false ∧
      (runSeq ⟨2, 100⟩ ['k'] [0, 10] (fun _ => [])).2 ['k'] = [0, 10] ∧
      isRateLimited ⟨2, 100⟩ 50 ['k'] (runSeq ⟨2, 100⟩ ['k'] [0, 10] (fun _ => [])).2 =
        (true, (runSeq ⟨2, 100⟩ ['k'] [0, 10] (fun _ => [])).2) ∧
      (isRateLimited ⟨2, 100⟩ 300 ['k'] (runSeq ⟨2, 100⟩ ['k'] [0, 10] (fun _ => [])).2).1 =
        false :=
  rate_limiter_window_spec ⟨2, 100⟩ ['k'] (by decide) (by decide) [0, 10] (by decide)
    50 300 (by decide) (by decide) (by decide) (fun _ => []) rfl

/-- C9: running `cleanup` at instant `now` changes neither the result of
`isRateLimited` nor that of `getRemainingRequests` at the same instant —
cleanup only drops timestamps those operations filter out anyway. -/
theorem cleanup_preserves_queries (cfg : RLConfig) (now : Int) (key : JSStr) (m : RLState) :
    (isRateLimited cfg now key (cleanup cfg now m)).1 =
      (isRateLimited cfg now key m).1 ∧
    getRemainingRequests cfg now key (cleanup cfg now m) =
      getRemainingRequests cfg now key m := by
  have hidem : ((m key).filter (fun ts => now - ts < cfg.windowMs)).filter
      (fun ts => now - ts < cfg.windowMs) =
      (m key).filter (fun ts => now - ts < cfg.windowMs) := by
    rw [List.filter_filter]
    apply List.filter_congr
    intro x _
    simp
  constructor
  · simp only [isRateLimited, cleanup, hidem]
    by_cases h :
        cfg.maxRequests ≤ ((m key).filter (fun ts => now - ts < cfg.windowMs)).length <;>
      simp [h]
  · simp only [getRemainingRequests, cleanup, hidem]

/-! ### Input sanitizer (`src/utils/security-helpers.ts`, `sanitizeInput`)

JavaScript strings are embedded as `List Char` (code points).  The three
regex replacements are global single-pass deletions; case-insensitive
matching is modelled by lowering characters.  Numeric comparisons on the
relevant paths are integral.
-/

/-- Characters removed by JavaScript `String.prototype.trim`. -/
def jsIsWS (c : Char) : Bool :=
  let n := c.toNat
  n = 32 || n = 9 || n = 10 || n = 11 || n = 12 || n = 13 ||
    n = 0xa0 || n = 0x1680 || (0x2000 ≤ n && n ≤ 0x200a) ||
    n = 0x2028 || n = 0x2029 || n = 0x202f || n = 0x205f || n = 0x3000 || n = 0xfeff

/-- ASCII lowering, enough for the ASCII patterns the code matches. -/
def jsLowerChar (c : Char) : Char :=
  if 'A' ≤ c ∧ c ≤ 'Z' then Char.ofNat (c.toNat + 32) else c

def jsToLower (s : JSStr) : JSStr := s.map jsLowerChar

/-- Embeds `\w` of the regexes: ASCII letters, digits and underscore. -/
def isWordChar (c : Char) : Bool :=
  ('a' ≤ c && c ≤ 'z') || ('A' ≤ c && c ≤ 'Z') || ('0' ≤ c && c ≤ '9') || c = '_'

/-- Case-insensitive "starts with" for a lowercase pattern. -/
def ciStartsWith (pat s : JSStr) : Bool :=
  jsToLower (s.take pat.length) = pat

/-- One global, non-overlapping, left-to-right deletion of a lowercase
pattern, matched case-insensitively — `replace(/pat/gi, "")`.  The fuel is
the string length, so the fallback arm never fires. -/
def removeAllCIAux (pat : JSStr) : Nat → JSStr → JSStr
  | _, [] => []
  | 0, s => s
  | fuel + 1, c :: rest =>
    if ciStartsWith pat (c :: rest) && !pat.isEmpty then
      removeAllCIAux pat fuel ((c :: rest).drop pat.length)
    else
      c :: removeAllCIAux pat fuel rest

def removeAllCI (pat s : JSStr) : JSStr := removeAllCIAux pat s.length s

/-- Length of the match of `/on\w+=/i` at the start of `s`, if any.  Since
`=` is not a word character, the greedy `\w+` must take the maximal word
run, and the next character must be `=`. -/
def onHandlerMatchLen (s : JSStr) : Option Nat :=
  match s with
  | c1 :: c2 :: rest =>
    if (c1 = 'o' || c1 = 'O') && (c2 = 'n' || c2 = 'N') then
      let w := rest.takeWhile isWordChar
      if w.isEmpty then none
      else
        match rest.drop w.length with
        | '=' :: _ => some (w.length + 3)
        | _ => none
    else none
  | _ => none

/-- Embeds `replace(/on\w+=/gi, "")`: scan left to right, deleting matches. -/
def removeOnAux : Nat → JSStr → JSStr
  | _, [] => []
  | 0, s => s
  | fuel + 1, c :: rest =>
    match onHandlerMatchLen (c :: rest) with
    | some n => removeOnAux fuel ((c :: rest).drop n)
    | none => c :: removeOnAux fuel rest

def removeOnHandlers (s : JSStr) : JSStr := removeOnAux s.length s

def jsTrimStart (s : JSStr) : JSStr := s.dropWhile jsIsWS

def jsTrimEnd (s : JSStr) : JSStr := (s.reverse.dropWhile jsIsWS).reverse

/-- Embeds `String.prototype.trim`. -/
def jsTrim (s : JSStr) : JSStr := jsTrimEnd (jsTrimStart s)

/-- The lowercase pattern of `replace(/javascript:/gi, "")`. -/
def jsProtocol : JSStr := ['j', 'a', 'v', 'a', 's', 'c', 'r', 'i', 'p', 't', ':']

/-- The sanitized text before the truncation step of `sanitizeInput`. -/
def sanitizedCore (s : JSStr) : JSStr :=
  jsTrim (removeOnHandlers (removeAllCI jsProtocol
    (s.filter (fun c => !(c = '<' || c = '>')))))

/-- Embeds `sanitizeInput(input, maxLength)`: `none` models a non-string input. -/
def sanitizeInput : Option JSStr → Nat → Option JSStr
  | none, _ => none
  | some s, maxLength =>
    if s.isEmpty then none
    else if maxLength < (sanitizedCore s).length then some ((sanitizedCore s).take maxLength)
    else some (sanitizedCore s)

theorem mem_removeAllCIAux (pat : JSStr) (fuel : Nat) :
    ∀ (s : JSStr) (c : Char), c ∈ removeAllCIAux pat fuel s → c ∈ s := by
  induction fuel with
  | zero =>
    intro s c h
    cases s with
    | nil => simp [removeAllCIAux] at h
    | cons a rest => exact h
  | succ n ih =>
    intro s c h
    cases s with
    | nil => simp [removeAllCIAux] at h
    | cons a rest =>
      simp only [removeAllCIAux] at h
      by_cases hm : (ciStartsWith pat (a :: rest) && !pat.isEmpty) = true
      · rw [if_pos hm] at h
        exact List.drop_subset _ _ (ih _ c h)
      · rw [if_neg hm] at h
        rcases List.mem_cons.mp h with h' | h'
        · exact h' ▸ List.mem_cons_self _ _
        · exact List.mem_cons_of_mem _ (ih rest c h')

theorem mem_removeOnAux (fuel : Nat) :
    ∀ (s : JSStr) (c : Char), c ∈ removeOnAux fuel s → c ∈ s := by
  induction fuel with
  | zero =>
    intro s c h
    cases s with
    | nil => simp [removeOnAux] at h
    | cons a rest => exact h
  | succ n ih =>
    intro s c h
    cases s with
    | nil => simp [removeOnAux] at h
    | cons a rest =>
      simp only [removeOnAux] at h
      rcases hm : onHandlerMatchLen (a :: rest) with _ | k
      · rw [hm] at h
        rcases List.mem_cons.mp h with h' | h'
        · exact h' ▸ List.mem_cons_self _ _
        · exact List.mem_cons_of_mem _ (ih rest c h')
      · rw [hm] at h
        exact List.drop_subset _ _ (ih _ c h)

theorem mem_jsTrim (s : JSStr) (c : Char) (h : c ∈ jsTrim s) : c ∈ s := by
  unfold jsTrim jsTrimEnd jsTrimStart at h
  rw [List.mem_reverse] at h
  have h1 := (List.dropWhile_sublist jsIsWS).subset h
  rw [List.mem_reverse] at h1
  exact (List.dropWhile_sublist jsIsWS).subset h1

/-- Every character of the sanitized text comes from the input and is not an
angle bracket. -/
theorem mem_sanitizedCore (s : JSStr) (c : Char) (h : c ∈ sanitizedCore s) :
    c ∈ s ∧ c ≠ '<' ∧ c ≠ '>' := by
  unfold sanitizedCore removeOnHandlers removeAllCI at h
  have h1 := mem_jsTrim _ _ h
  have h2 := mem_removeOnAux _ _ _ h1
  have h3 := mem_removeAllCIAux _ _ _ _ h2
  have h4 := List.mem_filter.mp h3
  refine ⟨h4.1, ?_, ?_⟩ <;>
    · intro he
      subst he
      simp at h4

theorem head?_dropWhile_not (p : Char → Bool) :
    ∀ (l : JSStr) (c : Char), (l.dropWhile p).head? = some c → p c = false := by
  intro l
  induction l with
  | nil => intro c h; simp [List.dropWhile] at h
  | cons a t ih =>
    intro c h
    rw [List.dropWhile_cons] at h
    by_cases hp : p a = true
    · rw [if_pos hp] at h
      exact ih c h
    · rw [if_neg hp] at h
      simp at h
      exact h ▸ Bool.eq_false_iff.mpr hp

/-- Appending the dropped whitespace back to `jsTrimEnd u` gives `u`;
in particular `jsTrimEnd u` is an initial segment of `u`. -/
theorem jsTrimEnd_append (u : JSStr) :
    jsTrimEnd u ++ (u.reverse.takeWhile jsIsWS).reverse = u := by
  unfold jsTrimEnd
  rw [← List.reverse_append, List.takeWhile_append_dropWhile, List.reverse_reverse]

theorem jsTrimEnd_getLast? (u : JSStr) (c : Char)
    (h : (jsTrimEnd u).getLast? = some c) : jsIsWS c = false := by
  unfold jsTrimEnd at h
  rw [List.getLast?_reverse] at h
  exact head?_dropWhile_not jsIsWS _ c h

theorem jsTrim_head? (s : JSStr) (c : Char) (h : (jsTrim s).head? = some c) :
    jsIsWS c = false := by
  rcases hj : jsTrim s with _ | ⟨a, t'⟩
  · rw [hj] at h
    cases h
  · rw [hj] at h
    simp at h
    subst h
    have hdec := jsTrimEnd_append (jsTrimStart s)
    unfold jsTrim at hj
    rw [hj] at hdec
    have hhead : (jsTrimStart s).head? = some a := by
      rw [← hdec]
      rfl
    exact head?_dropWhile_not jsIsWS s a hhead

theorem head?_take (l : JSStr) (n : Nat) (c : Char)
    (h : (l.take n).head? = some c) : l.head? = some c := by
  cases l with
  | nil => simp at h
  | cons a t =>
    cases n with
    | zero => simp at h
    | succ m => simpa using h

/-- C6 counterexample input: `"a bc"` truncated to 2 characters. -/
def cexInput : JSStr := ['a', ' ', 'b', 'c']

/-- C6 (as stated) is false: with `maxLength = 2` the input `"a bc"`
sanitizes to `"a "`, whose final character is whitespace, because the code
trims before truncating. -/
theorem sanitizeInput_trailing_ws_cex :
    sanitizeInput (some cexInput) 2 = some ['a', ' '] ∧
      jsIsWS ' ' = true ∧ ['a', ' '].getLast? = some ' ' := by
  refine ⟨?_, by decide, by decide⟩
  decide

/-- C6 amended: `sanitizeInput` yields `none` exactly for a missing/empty
input; otherwise the output has no angle brackets, no leading whitespace,
length at most `maxLength`, and every character is drawn from the input;
when no truncation happens the output also has no trailing whitespace. -/
theorem sanitizeInput_spec :
    (∀ n, sanitizeInput none n = none) ∧
    (∀ n, sanitizeInput (some []) n = none) ∧
    (∀ (s : JSStr) (n : Nat) (out : JSStr), sanitizeInput (some s) n = some out →
      (∀ c ∈ out, c ∈ s ∧ c ≠ '<' ∧ c ≠ '>') ∧
      out.length ≤ n ∧
      (∀ c, out.head? = some c → jsIsWS c = false) ∧
      ((sanitizedCore s).length ≤ n →
        ∀ c, out.getLast? = some c → jsIsWS c = false)) := by
  refine ⟨fun n => rfl, fun n => rfl, ?_⟩
  intro s n out hout
  simp only [sanitizeInput] at hout
  by_cases hs : s.isEmpty
  · rw [if_pos hs] at hout
    cases hout
  · rw [if_neg hs] at hout
    by_cases htr : n < (sanitizedCore s).length
    · rw [if_pos htr] at hout
      have heq : out = (sanitizedCore s).take n := by
        injection hout with h
        exact h.symm
      subst heq
      refine ⟨?_, ?_, ?_, ?_⟩
      · intro c hc
        exact mem_sanitizedCore s c (List.take_subset _ _ hc)
      · simp [List.length_take]
      · intro c hc
        exact jsTrim_head? _ c (head?_take _ _ c hc)
      · intro habs
        omega
    · rw [if_neg htr] at hout
      have heq : out = sanitizedCore s := by
        injection hout with h
        exact h.symm
      subst heq
      refine ⟨?_, by omega, ?_, ?_⟩
      · intro c hc
        exact mem_sanitizedCore s c hc
      · intro c hc
        exact jsTrim_head? _ c hc
      · intro _ c hc
        exact jsTrimEnd_getLast? _ c hc

/-- C6 amended witness at `s = "a"`, `maxLength = 1000`. -/
theorem sanitizeInput_spec_witness :
    (∀ c ∈ ['a'], c ∈ ['a'] ∧ c ≠ '<' ∧ c ≠ '>') ∧
      (['a'] : JSStr).length ≤ 1000 ∧
      (∀ c, (['a'] : JSStr).head? = some c → jsIsWS c = false) ∧
      ((sanitizedCore ['a']).length ≤ 1000 →
        ∀ c, (['a'] : JSStr).getLast? = some c → jsIsWS c = false) :=
  sanitizeInput_spec.2.2 ['a'] 1000 ['a'] (by decide)

/-! ### Abuse detector (`src/utils/security-helpers.ts`, `detectAbuse`)

The flood regex `/(.)\1{10,}/g` is embedded with the JavaScript semantics
of `.`: it does not match the line terminators `\n`, `\r`, U+2028, U+2029.
The two fractional comparisons (`capsPercentage > 0.7`,
`emojiCount > text.length * 0.3`) are embedded as the exact rational
comparisons `10·count > 7·len` and `10·count > 3·len`.
-/

structure AbuseResult where
  isSpam : Bool
  isFlood : Bool
  containsSuspiciousContent : Bool
  score : Nat
deriving DecidableEq

/-- Line terminators, which `.` (without the `s` flag) does not match. -/
def lineTerm (c : Char) : Bool :=
  c = '\n' || c = '\r' || c.toNat = 0x2028 || c.toNat = 0x2029

/-- Embeds `/(.)\1{10,}/.test(text)`: some position holds a non-line-terminator
character followed by at least ten further copies of itself. -/
def hasFloodRun : JSStr → Bool
  | [] => false
  | c :: rest =>
    (!lineTerm c && decide (10 ≤ (rest.takeWhile (fun d => d = c)).length)) ||
      hasFloodRun rest

/-- The excessive-capitals heuristic: uppercase fraction above 0.7 and
length above 10. -/
def capsHit (t : JSStr) : Bool :=
  decide (7 * t.length < 10 * (t.filter (fun c => 'A' ≤ c && c ≤ 'Z')).length) &&
    decide (10 < t.length)

/-- Matches `.test` of a literal pattern: the pattern occurs somewhere. -/
def searchSub (p : JSStr) : JSStr → Bool
  | [] => false
  | c :: rest => p.isPrefixOf (c :: rest) || searchSub p rest

/-- Find `p` preceded only by non-line-terminator characters (the `.*`
in the middle of a pattern). -/
def gapSearch (p : JSStr) : JSStr → Bool
  | [] => false
  | c :: rest => p.isPrefixOf (c :: rest) || (!lineTerm c && gapSearch p rest)

/-- Matches `.test` of `/p.*q/`: `p` anywhere, then `q` after a terminator-free gap. -/
def searchThenGap (p q : JSStr) : JSStr → Bool
  | [] => false
  | c :: rest =>
    (p.isPrefixOf (c :: rest) && gapSearch q ((c :: rest).drop p.length)) ||
      searchThenGap p q rest

/-- Matches `q` after a terminator-free gap, then `w` after another such gap. -/
def gapSearchThenGap (q w : JSStr) : JSStr → Bool
  | [] => false
  | c :: rest =>
    (q.isPrefixOf (c :: rest) && gapSearch w ((c :: rest).drop q.length)) ||
      (!lineTerm c && gapSearchThenGap q w rest)

/-- Matches `.test` of `/p.*q.*w/`. -/
def searchThenGap2 (p q w : JSStr) : JSStr → Bool
  | [] => false
  | c :: rest =>
    (p.isPrefixOf (c :: rest) && gapSearchThenGap q w ((c :: rest).drop p.length)) ||
      searchThenGap2 p q w rest

/-- The fixed suspicious link/phrase patterns, matched case-insensitively. -/
def suspiciousHit (t : JSStr) : Bool :=
  let lt := jsToLower t
  searchSub ['b', 'i', 't', '.', 'l', 'y'] lt ||
    searchSub ['t', 'i', 'n', 'y', 'u', 'r', 'l'] lt ||
    searchSub ['t', 'e', 'l', 'e', 'g', 'r', 'a', 'm', '.', 'm', 'e', '/',
      'j', 'o', 'i', 'n', 'c', 'h', 'a', 't'] lt ||
    searchSub ['d', 'i', 's', 'c', 'o', 'r', 'd', '.', 'g', 'g'] lt ||
    searchThenGap ['f', 'r', 'e', 'e'] ['c', 'r', 'y', 'p', 't', 'o'] lt ||
    searchThenGap2 ['c', 'l', 'i', 'c', 'k'] ['h', 'e', 'r', 'e'] ['n', 'o', 'w'] lt

/-- The emoji code-point ranges of the source regex. -/
def isEmojiChar (c : Char) : Bool :=
  let n := c.toNat
  (0x1F600 ≤ n && n ≤ 0x1F64F) || (0x1F300 ≤ n && n ≤ 0x1F5FF) ||
    (0x1F680 ≤ n && n ≤ 0x1F6FF) || (0x2600 ≤ n && n ≤ 0x26FF) ||
    (0x2700 ≤ n && n ≤ 0x27BF)

/-- The excessive-emoji heuristic: emoji fraction above 0.3 and length
above 5. -/
def emojiHit (t : JSStr) : Bool :=
  decide (3 * t.length < 10 * (t.filter isEmojiChar).length) && decide (5 < t.length)

/-- Embeds `detectAbuse(text)`; `none` models an `undefined` argument, and the
empty string is falsy like `undefined`. -/
def detectAbuse : Option JSStr → AbuseResult
  | none => ⟨false, false, false, 0⟩
  | some t =>
    if t.isEmpty then ⟨false, false, false, 0⟩
    else
      ⟨decide (50 ≤ cond (hasFloodRun t) 30 0 + cond (capsHit t) 20 0 +
          cond (suspiciousHit t) 40 0 + cond (emojiHit t) 15 0),
        hasFloodRun t, suspiciousHit t,
        cond (hasFloodRun t) 30 0 + cond (capsHit t) 20 0 +
          cond (suspiciousHit t) 40 0 + cond (emojiHit t) 15 0⟩

theorem detectAbuse_some_ne (u : JSStr) (hu : u.isEmpty = false) :
    detectAbuse (some u) =
      ⟨decide (50 ≤ cond (hasFloodRun u) 30 0 + cond (capsHit u) 20 0 +
          cond (suspiciousHit u) 40 0 + cond (emojiHit u) 15 0),
        hasFloodRun u, suspiciousHit u,
        cond (hasFloodRun u) 30 0 + cond (capsHit u) 20 0 +
          cond (suspiciousHit u) 40 0 + cond (emojiHit u) 15 0⟩ := by
  simp [detectAbuse, hu]

theorem length_takeWhile_replicate_append (c : Char) (m : Nat) (l : JSStr) :
    m ≤ ((List.replicate m c ++ l).takeWhile (fun d => d = c)).length := by
  induction m with
  | zero => simp
  | succ k ih =>
    rw [List.replicate_succ, List.cons_append, List.takeWhile_cons]
    simp only [decide_eq_true_eq]
    rw [if_pos trivial]
    simp only [List.length_cons]
    omega

/-- The scan `hasFloodRun` is equivalent to the declarative statement:
some maximal run of a non-line-terminator character has length ≥ 11. -/
theorem hasFloodRun_iff (t : JSStr) :
    hasFloodRun t = true ↔
      ∃ c n l₁ l₂, t = l₁ ++ List.replicate n c ++ l₂ ∧ 11 ≤ n ∧
        lineTerm c = false := by
  induction t with
  | nil =>
    simp only [hasFloodRun]
    constructor
    · intro h
      cases h
    · rintro ⟨c, n, l₁, l₂, h, hn, -⟩
      have := congrArg List.length h
      simp at this
      omega
  | cons a rest ih =>
    simp only [hasFloodRun, Bool.or_eq_true, Bool.and_eq_true, decide_eq_true_eq]
    constructor
    · rintro (⟨hterm, hlen⟩ | h)
      · have hmem : ∀ b ∈ rest.takeWhile (fun d => d = a), b = a := by
          intro b hb
          have := List.mem_takeWhile_imp hb
          exact of_decide_eq_true this
        have hrep : rest.takeWhile (fun d => d = a) =
            List.replicate (rest.takeWhile (fun d => d = a)).length a :=
          List.eq_replicate_iff.mpr ⟨rfl, hmem⟩
        have hsplit : rest =
            rest.takeWhile (fun d => d = a) ++ rest.dropWhile (fun d => d = a) :=
          (List.takeWhile_append_dropWhile _ _).symm
        refine ⟨a, (rest.takeWhile (fun d => d = a)).length + 1, [],
          rest.dropWhile (fun d => d = a), ?_, by omega, by simpa using hterm⟩
        rw [List.nil_append, List.replicate_succ, List.cons_append, ← hrep, ← hsplit]
      · obtain ⟨c, n, l₁, l₂, hdec, hn, hc⟩ := ih.mp h
        refine ⟨c, n, a :: l₁, l₂, ?_, hn, hc⟩
        rw [hdec]
        simp
    · rintro ⟨c, n, l₁, l₂, hdec, hn, hc⟩
      cases l₁ with
      | nil =>
        left
        rw [List.nil_append] at hdec
        have hn1 : n = (n - 1) + 1 := by omega
        rw [hn1, List.replicate_succ, List.cons_append] at hdec
        injection hdec with ha hrest
        subst ha
        constructor
        · simpa using hc
        · rw [hrest]
          have := length_takeWhile_replicate_append a (n - 1) l₂
          omega
      | cons b l₁' =>
        right
        apply ih.mpr
        rw [List.cons_append, List.cons_append] at hdec
        injection hdec with ha hrest
        exact ⟨c, n, l₁', l₂, by rw [hrest, List.append_assoc], hn, hc⟩

theorem detectAbuse_isFlood (t : JSStr) :
    (detectAbuse (some t)).isFlood = hasFloodRun t := by
  cases t with
  | nil => rfl
  | cons a rest => rw [detectAbuse_some_ne _ (by simp)]

/-- The claim's literal flood condition: a run of ≥ 11 identical
characters, with no restriction on which character. -/
def specAnyRun11 (t : JSStr) : Prop :=
  ∃ c n l₁ l₂, t = l₁ ++ List.replicate n c ++ l₂ ∧ 11 ≤ n

/-- C7 (as stated) is false: eleven consecutive newlines are a run of ≥ 11
identical characters, yet `detectAbuse` reports no flood and score 0,
because `.` in the flood regex does not match line terminators. -/
theorem detectAbuse_flood_newline_cex :
    specAnyRun11 (List.replicate 11 '\n') ∧
      (detectAbuse (some (List.replicate 11 '\n'))).isFlood = false ∧
      (detectAbuse (some (List.replicate 11 '\n'))).score = 0 := by
  refine ⟨⟨'\n', 11, [], [], by simp, by norm_num⟩, ?_, ?_⟩ <;> decide

/-- C7 amended: `isFlood` fires exactly on a run of ≥ 11 identical
*non-line-terminator* characters and contributes 30 to the additive score;
`isSpam` is exactly `score ≥ 50`; empty or undefined text yields the
all-false zero result. -/
theorem detectAbuse_flood_spec :
    (∀ t : JSStr, ((detectAbuse (some t)).isFlood = true ↔
        ∃ c n l₁ l₂, t = l₁ ++ List.replicate n c ++ l₂ ∧ 11 ≤ n ∧
          lineTerm c = false)) ∧
    (∀ t : JSStr, (detectAbuse (some t)).score =
        cond (detectAbuse (some t)).isFlood 30 0 + cond (capsHit t) 20 0 +
          cond (detectAbuse (some t)).containsSuspiciousContent 40 0 +
          cond (emojiHit t) 15 0) ∧
    (∀ t : Option JSStr,
        (detectAbuse t).isSpam = decide (50 ≤ (detectAbuse t).score)) ∧
    detectAbuse none = ⟨false, false, false, 0⟩ ∧
    detectAbuse (some []) = ⟨false, false, false, 0⟩ := by
  refine ⟨?_, ?_, ?_, rfl, rfl⟩
  · intro t
    rw [detectAbuse_isFlood]
    exact hasFloodRun_iff t
  · intro t
    cases t with
    | nil => rfl
    | cons a rest => rw [detectAbuse_some_ne _ (by simp)]
  · intro t
    rcases t with _ | u
    · rfl
    · cases u with
      | nil => rfl
      | cons a rest => rw [detectAbuse_some_ne _ (by simp)]

/-- C7 amended witness: the spec example, fifteen repeated `A`s, floods. -/
theorem detectAbuse_flood_spec_witness :
    (detectAbuse (some (List.replicate 15 'A'))).isFlood = true :=
  (detectAbuse_flood_spec.1 (List.replicate 15 'A')).mpr
    ⟨'A', 15, [], [], by simp, by norm_num, by decide⟩

theorem score_structure_bools :
    ∀ f c s e : Bool,
      (cond f 30 0 + cond c 20 0 + cond s 40 0 + cond e 15 0 ≤ 105) ∧
      (decide (50 ≤ cond f 30 0 + cond c 20 0 + cond s 40 0 + cond e 15 0) = true →
        2 ≤ cond f 1 0 + cond c 1 0 + cond s 1 0 + cond e 1 0) ∧
      (s = true → f = false → c = false → e = false →
        decide (50 ≤ cond f 30 0 + cond c 20 0 + cond s 40 0 + cond e 15 0) = false) := by
  decide

/-- C10: the score is the sum of the fired subset of {30, 20, 40, 15}
(hence at most 105); spam requires at least two heuristics; a text whose
only hit is the suspicious-content pattern is never spam. -/
theorem detectAbuse_score_structure (t : Option JSStr) :
    ∃ f c s e : Bool,
      (detectAbuse t).isFlood = f ∧
      (detectAbuse t).containsSuspiciousContent = s ∧
      (detectAbuse t).score = cond f 30 0 + cond c 20 0 + cond s 40 0 + cond e 15 0 ∧
      (detectAbuse t).score ≤ 105 ∧
      ((detectAbuse t).isSpam = true →
        2 ≤ cond f 1 0 + cond c 1 0 + cond s 1 0 + cond e 1 0) ∧
      (s = true → f = false → c = false → e = false →
        (detectAbuse t).isSpam = false) := by
  rcases t with _ | u
  · exact ⟨false, false, false, false, rfl, rfl, rfl, by decide, by decide, fun h => by cases h⟩
  · rcases hu : u.isEmpty with _ | _
    · have heq := detectAbuse_some_ne u hu
      obtain ⟨h1, h2, h3⟩ := score_structure_bools (hasFloodRun u) (capsHit u)
        (suspiciousHit u) (emojiHit u)
      refine ⟨hasFloodRun u, capsHit u, suspiciousHit u, emojiHit u, ?_, ?_, ?_, ?_, ?_, ?_⟩
      · rw [heq]
      · rw [heq]
      · rw [heq]
      · rw [heq]
        exact h1
      · rw [heq]
        exact h2
      · intro hs hf hc he
        rw [heq]
        simp only [AbuseResult.isSpam]
        rw [h3 hs hf hc he]
    · have : u = [] := List.isEmpty_iff.mp hu
      subst this
      exact ⟨false, false, false, false, rfl, rfl, rfl, by decide, by decide,
        fun h => by cases h⟩

/-- C10 witness: `"bit.ly"` hits only the suspicious pattern — score 40,
not spam. -/
theorem detectAbuse_score_structure_witness :
    (detectAbuse (some ['b', 'i', 't', '.', 'l', 'y'])).score = 40 ∧
      (detectAbuse (some ['b', 'i', 't', '.', 'l', 'y'])).isSpam = false := by
  obtain ⟨f, c, s, e, h1, h2, h3, h4, h5, h6⟩ :=
    detectAbuse_score_structure (some ['b', 'i', 't', '.', 'l', 'y'])
  exact ⟨by decide, by decide⟩

/-! ### Persistence layer and `trackMessage` (`src/utils/db-helpers.ts`)

The D1 store is a record of `users` and `chat_counter` rows; the two SQL
statements of `trackMessage` become an insert-if-absent on `users` and an
upsert on `chat_counter`.  The current UTC date, which the code derives
from the clock, is the explicit parameter `today`.
-/

structure UserRow where
  platform : JSStr
  user_id : JSStr
  display_name : JSStr
deriving DecidableEq

structure CounterRow where
  chat_date : JSStr
  platform : JSStr
  user_id : JSStr
  message_count : Int
  message_length : Int
deriving DecidableEq

structure DBState where
  users : List UserRow
  counters : List CounterRow
deriving DecidableEq

inductive TrackError
  | invalidPlatform
  | missingUserId
  | missingDisplayName
  | invalidMessageLength
deriving DecidableEq

def telegramStr : JSStr := ['t', 'e', 'l', 'e', 'g', 'r', 'a', 'm']

def discordStr : JSStr := ['d', 'i', 's', 'c', 'o', 'r', 'd']

/-- Embeds `!platform || !['telegram','discord'].includes(platform.toLowerCase())`. -/
def validPlatform (p : JSStr) : Bool :=
  !p.isEmpty && (jsToLower p = telegramStr || jsToLower p = discordStr)

/-- Embeds `validateTrackingParams`, with the first failing check reported.
`Number.isInteger` is carried by the `Int` type; negativity remains. -/
def validateTrackingParams (platform userId displayName : JSStr)
    (messageLength : Int) : Option TrackError :=
  if !validPlatform platform then some .invalidPlatform
  else if userId.isEmpty || (jsTrim userId).isEmpty then some .missingUserId
  else if displayName.isEmpty || (jsTrim displayName).isEmpty then some .missingDisplayName
  else if messageLength < 0 then some .invalidMessageLength
  else none

def userKeyB (p u : JSStr) (r : UserRow) : Bool :=
  r.platform = p && r.user_id = u

def counterKeyB (d p u : JSStr) (r : CounterRow) : Bool :=
  r.chat_date = d && r.platform = p && r.user_id = u

def lookupUser (st : DBState) (p u : JSStr) : Option UserRow :=
  st.users.find? (userKeyB p u)

def findCounter (st : DBState) (d p u : JSStr) : Option CounterRow :=
  st.counters.find? (counterKeyB d p u)

/-- The `chat_counter` upsert: insert `(1, len)` if the key is absent,
else add `1` to the count and `len` to the length of the keyed row. -/
def counterUpsert (d p u : JSStr) (len : Int) (cs : List CounterRow) : List CounterRow :=
  if (cs.find? (counterKeyB d p u)).isSome then
    cs.map (fun r =>
      if counterKeyB d p u r then
        { r with message_count := r.message_count + 1,
                 message_length := r.message_length + len }
      else r)
  else cs ++ [⟨d, p, u, 1, len⟩]

/-- Embeds `trackMessage(db, platform, userId, displayName, messageLength)` at UTC
date `today`: validate, `INSERT OR IGNORE` the user, upsert the counter. -/
def trackMessage (today platform userId displayName : JSStr) (messageLength : Int)
    (st : DBState) : Except TrackError DBState :=
  match validateTrackingParams platform userId displayName messageLength with
  | some e => .error e
  | none =>
    let sp := jsTrim (jsToLower platform)
    let su := jsTrim userId
    let sd := jsTrim displayName
    .ok ⟨(if (st.users.find? (userKeyB sp su)).isSome then st.users
          else st.users ++ [⟨sp, su, sd⟩]),
         counterUpsert today sp su messageLength st.counters⟩

/-- Embeds `trackMessage` once per message of the given lengths, same user and day. -/
def foldTrack (today platform userId displayName : JSStr) :
    List Int → DBState → Except TrackError DBState
  | [], st => .ok st
  | l :: ls, st =>
    match trackMessage today platform userId displayName l st with
    | .error e => .error e
    | .ok st' => foldTrack today platform userId displayName ls st'

theorem validateTrackingParams_none (platform userId displayName : JSStr)
    (messageLength : Int) (hp : validPlatform platform = true)
    (hu : jsTrim userId ≠ []) (hd : jsTrim displayName ≠ [])
    (hl : 0 ≤ messageLength) :
    validateTrackingParams platform userId displayName messageLength = none := by
  have hu' : userId ≠ [] := by
    intro he
    exact hu (by rw [he]; rfl)
  have hd' : displayName ≠ [] := by
    intro he
    exact hd (by rw [he]; rfl)
  unfold validateTrackingParams
  rw [if_neg, if_neg, if_neg, if_neg]
  · omega
  · simp [List.isEmpty_iff, hd', hd]
  · simp [List.isEmpty_iff, hu', hu]
  · simp [hp]

theorem find?_congrB {α : Type} (p q : α → Bool) (h : ∀ x, p x = q x) :
    ∀ l : List α, l.find? p = l.find? q := by
  intro l
  induction l with
  | nil => rfl
  | cons a t ih =>
    by_cases hp : p a = true
    · rw [List.find?_cons_of_pos _ hp, List.find?_cons_of_pos _ (h a ▸ hp)]
    · rw [List.find?_cons_of_neg _ hp, ih, List.find?_cons_of_neg _ (h a ▸ hp)]

/-- Updating the keyed row does not change which row `find?` locates. -/
theorem find?_counterUpsert_hit (d p u : JSStr) (len : Int) (cs : List CounterRow)
    (r : CounterRow) (hr : cs.find? (counterKeyB d p u) = some r) :
    (counterUpsert d p u len cs).find? (counterKeyB d p u) =
      some { r with message_count := r.message_count + 1,
                    message_length := r.message_length + len } := by
  have hkey : ∀ x : CounterRow,
      counterKeyB d p u (if counterKeyB d p u x then
        { x with message_count := x.message_count + 1,
                 message_length := x.message_length + len }
      else x) = counterKeyB d p u x := by
    intro x
    by_cases hx : counterKeyB d p u x = true
    · rw [if_pos hx]
      simpa [counterKeyB] using hx
    · rw [if_neg hx]
  unfold counterUpsert
  rw [if_pos (by rw [hr]; rfl)]
  rw [List.find?_map]
  have := find?_congrB _ _ hkey cs
  rw [show (counterKeyB d p u ∘ fun x =>
      if counterKeyB d p u x then
        { x with message_count := x.message_count + 1,
                 message_length := x.message_length + len }
      else x) = fun x => counterKeyB d p u (if counterKeyB d p u x then
        { x with message_count := x.message_count + 1,
                 message_length := x.message_length + len }
      else x) from rfl, find?_congrB _ _ hkey cs, hr]
  have hrkey : counterKeyB d p u r = true := List.find?_some hr
  simp [hrkey]

theorem find?_counterUpsert_miss (d p u : JSStr) (len : Int) (cs : List CounterRow)
    (hr : cs.find? (counterKeyB d p u) = none) :
    (counterUpsert d p u len cs).find? (counterKeyB d p u) =
      some ⟨d, p, u, 1, len⟩ := by
  unfold counterUpsert
  rw [if_neg (by rw [hr]; simp)]
  rw [List.find?_append, hr]
  simp [counterKeyB]

/-- A valid `trackMessage` call succeeds; its counters come from the
counter upsert, and the user table only ever grows. -/
theorem trackMessage_ok (today platform userId displayName : JSStr) (l : Int)
    (st : DBState) (hp : validPlatform platform = true)
    (hu : jsTrim userId ≠ []) (hd : jsTrim displayName ≠ []) (hl : 0 ≤ l) :
    ∃ st', trackMessage today platform userId displayName l st = .ok st' ∧
      st'.counters =
        counterUpsert today (jsTrim (jsToLower platform)) (jsTrim userId) l st.counters := by
  refine ⟨⟨(if (st.users.find?
      (userKeyB (jsTrim (jsToLower platform)) (jsTrim userId))).isSome then st.users
    else st.users ++ [⟨jsTrim (jsToLower platform), jsTrim userId, jsTrim displayName⟩]),
    counterUpsert today (jsTrim (jsToLower platform)) (jsTrim userId) l st.counters⟩,
    ?_, rfl⟩
  unfold trackMessage
  rw [validateTrackingParams_none platform userId displayName l hp hu hd hl]

/-- Running `foldTrack` over further lengths adds their number to the
count and their sum to the length of an existing day-counter row. -/
theorem foldTrack_counter_aux (today platform userId displayName : JSStr)
    (hp : validPlatform platform = true) (hu : jsTrim userId ≠ [])
    (hd : jsTrim displayName ≠ []) :
    ∀ (lens : List Int), (∀ l ∈ lens, 0 ≤ l) →
      ∀ (st : DBState) (r0 : CounterRow),
        findCounter st today (jsTrim (jsToLower platform)) (jsTrim userId) = some r0 →
        ∃ st' r, foldTrack today platform userId displayName lens st = .ok st' ∧
          findCounter st' today (jsTrim (jsToLower platform)) (jsTrim userId) = some r ∧
          r.message_count = r0.message_count + lens.length ∧
          r.message_length = r0.message_length + lens.sum := by
  intro lens
  induction lens with
  | nil =>
    intro _ st r0 hfind
    exact ⟨st, r0, rfl, hfind, by simp, by simp⟩
  | cons l ls ih =>
    intro hpos st r0 hfind
    obtain ⟨st1, hok, hcnt⟩ := trackMessage_ok today platform userId displayName l st
      hp hu hd (hpos l (List.mem_cons_self _ _))
    have hfind1 : findCounter st1 today (jsTrim (jsToLower platform)) (jsTrim userId) =
        some { r0 with message_count := r0.message_count + 1,
                       message_length := r0.message_length + l } := by
      unfold findCounter
      rw [hcnt]
      exact find?_counterUpsert_hit _ _ _ _ _ _ hfind
    obtain ⟨st', r, hfold, hfind', hc, hlen⟩ :=
      ih (fun x hx => hpos x (List.mem_cons_of_mem _ hx)) st1 _ hfind1
    refine ⟨st', r, ?_, hfind', ?_, ?_⟩
    · unfold foldTrack
      rw [hok]
      exact hfold
    · rw [hc]
      push_cast
      simp only [List.length_cons]
      push_cast
      ring
    · rw [hlen]
      simp [List.sum_cons]
      ring

/-- C1: starting with no counter row for the (date, platform, user) key,
N successful `trackMessage` calls with lengths `lens` leave the key's row
with `message_count = N` and `message_length = lens.sum`. -/
theorem trackMessage_day_counter (today platform userId displayName : JSStr)
    (hp : validPlatform platform = true) (hu : jsTrim userId ≠ [])
    (hd : jsTrim displayName ≠ [])
    (lens : List Int) (hpos : ∀ l ∈ lens, 0 ≤ l) (hne : lens ≠ [])
    (st : DBState)
    (h0 : findCounter st today (jsTrim (jsToLower platform)) (jsTrim userId) = none) :
    ∃ st' r, foldTrack today platform userId displayName lens st = .ok st' ∧
      findCounter st' today (jsTrim (jsToLower platform)) (jsTrim userId) = some r ∧
      r.message_count = lens.length ∧ r.message_length = lens.sum := by
  cases lens with
  | nil => exact absurd rfl hne
  | cons l ls =>
    obtain ⟨st1, hok, hcnt⟩ := trackMessage_ok today platform userId displayName l st
      hp hu hd (hpos l (List.mem_cons_self _ _))
    have hfind1 : findCounter st1 today (jsTrim (jsToLower platform)) (jsTrim userId) =
        some ⟨today, jsTrim (jsToLower platform), jsTrim userId, 1, l⟩ := by
      unfold findCounter
      rw [hcnt]
      exact find?_counterUpsert_miss _ _ _ _ _ h0
    obtain ⟨st', r, hfold, hfind', hc, hlen⟩ :=
      foldTrack_counter_aux today platform userId displayName hp hu hd ls
        (fun x hx => hpos x (List.mem_cons_of_mem _ hx)) st1 _ hfind1
    refine ⟨st', r, ?_, hfind', ?_, ?_⟩
    · unfold foldTrack
      rw [hok]
      exact hfold
    · rw [hc]
      simp only [List.length_cons]
      push_cast
      ring
    · rw [hlen]
      simp [List.sum_cons]

/-- C1 witness: two messages of lengths 3 and 5 on one day leave the row
at count 2, length 8. -/
theorem trackMessage_day_counter_witness :
    ∃ st' r,
      foldTrack ['d'] telegramStr ['u'] ['n'] [3, 5] ⟨[], []⟩ = .ok st' ∧
      findCounter st' ['d'] (jsTrim (jsToLower telegramStr)) (jsTrim ['u']) = some r ∧
      r.message_count = ([3, 5] : List Int).length ∧
      r.message_length = ([3, 5] : List Int).sum :=
  trackMessage_day_counter ['d'] telegramStr ['u'] ['n'] (by decide) (by decide)
    (by decide) [3, 5] (by decide) (by decide) ⟨[], []⟩ (by decide)

/-- C5: a successful `trackMessage` call never removes a user row and never
changes the row any (platform, userId) key already resolves to — in
particular an existing display name is left as first seen.  A failing call
returns an error and no state at all. -/
theorem trackMessage_user_row_stable (today platform userId displayName : JSStr)
    (l : Int) (st st' : DBState)
    (hok : trackMessage today platform userId displayName l st = .ok st') :
    (∀ r ∈ st.users, r ∈ st'.users) ∧
    (∀ q v r, lookupUser st q v = some r → lookupUser st' q v = some r) := by
  unfold trackMessage at hok
  cases hv : validateTrackingParams platform userId displayName l with
  | some e =>
    rw [hv] at hok
    cases hok
  | none =>
    rw [hv] at hok
    injection hok with hst
    subst hst
    by_cases hf : (st.users.find?
        (userKeyB (jsTrim (jsToLower platform)) (jsTrim userId))).isSome
    · constructor
      · intro r hr
        simpa [hf] using hr
      · intro q v r hr
        simpa [lookupUser, hf] using hr
    · constructor
      · intro r hr
        simp only [hf, if_neg, Bool.false_eq_true, if_false]
        exact List.mem_append_left _ hr
      · intro q v r hr
        simp only [lookupUser, hf, Bool.false_eq_true, if_false] at hr ⊢
        rw [List.find?_append, hr]
        rfl

/-- C5 witness: tracking a second message with a *different* display name
keeps the first-seen user row intact. -/
theorem trackMessage_user_row_stable_witness :
    (∀ r ∈ (⟨[⟨telegramStr, ['u'], ['n']⟩], []⟩ : DBState).users,
      r ∈ (⟨[⟨telegramStr, ['u'], ['n']⟩],
        [⟨['d'], telegramStr, ['u'], 1, 5⟩]⟩ : DBState).users) ∧
    (∀ q v r,
      lookupUser ⟨[⟨telegramStr, ['u'], ['n']⟩], []⟩ q v = some r →
      lookupUser ⟨[⟨telegramStr, ['u'], ['n']⟩],
        [⟨['d'], telegramStr, ['u'], 1, 5⟩]⟩ q v = some r) :=
  trackMessage_user_row_stable ['d'] telegramStr ['u'] ['m'] 5
    ⟨[⟨telegramStr, ['u'], ['n']⟩], []⟩
    ⟨[⟨telegramStr, ['u'], ['n']⟩], [⟨['d'], telegramStr, ['u'], 1, 5⟩]⟩
    (by rfl)

/-! ### Statistics & leaderboard engine (`src/utils/stats-helpers.ts`)

Each operation validates first and only then prepares and runs its SQL; the
list of executed statements is returned next to the result, so "rejected
before any query executes" is "the statement list is empty".  Clock-derived
strings (`today`, week/month start dates) are explicit parameters.  The JS
`limit` is `Option Int`: `none` is `NaN` (a failed `parseInt`), on which
`Number.isInteger` is false.
-/

inductive StatsQuery
  | qDailyLeaderboard
  | qWeeklyLeaderboard
  | qMonthlyLeaderboard
  | qAllTimeLeaderboard
  | qUserDaily
  | qUserWeekly
  | qUserMonthly
  | qUserAllTime
  | qUserRank
  | qTotalUsers
  | qTotalMessages
  | qActiveToday
  | qActiveWeek
deriving DecidableEq

inductive StatsError
  | invalidPlatform
  | invalidLimit
  | missingUserId
deriving DecidableEq

/-- Embeds `Number.isInteger(limit) && 1 <= limit && limit <= 1000`. -/
def validStatsLimit : Option Int → Bool
  | none => false
  | some v => decide (1 ≤ v) && decide (v ≤ 1000)

/-- Embeds `validateDatabaseParams(platform, limit)` of `stats-helpers.ts`. -/
def validateStatsParams (platform : JSStr) (limit : Option Int) : Option StatsError :=
  if !validPlatform platform then some .invalidPlatform
  else if !validStatsLimit limit then some .invalidLimit
  else none

structure LBRow where
  user_id : JSStr
  display_name : JSStr
  message_count : Int
  message_length : Int
deriving DecidableEq

/-- Embeds `ORDER BY message_count DESC, message_length DESC`: `lbLE a b` holds
when `a` may come no later than `b`. -/
def lbLE (a b : LBRow) : Prop :=
  b.message_count < a.message_count ∨
    (a.message_count = b.message_count ∧ b.message_length ≤ a.message_length)

instance : DecidableRel lbLE := fun a b =>
  decidable_of_iff (b.message_count < a.message_count ∨
    (a.message_count = b.message_count ∧ b.message_length ≤ a.message_length)) Iff.rfl

instance : IsTotal LBRow lbLE :=
  ⟨fun a b => by unfold lbLE; omega⟩

instance : IsTrans LBRow lbLE :=
  ⟨fun a b c h1 h2 => by unfold lbLE at *; omega⟩

/-- SQLite string `>=` (bytewise, adequate for `YYYY-MM-DD` dates). -/
def jsStrLe : JSStr → JSStr → Bool
  | [], _ => true
  | _ :: _, [] => false
  | a :: as, b :: bs => decide (a < b) || (a = b && jsStrLe as bs)

/-- Embeds `LIMIT ?` with a validated bound. -/
def takeLimit : Option Int → List LBRow → List LBRow
  | none, l => l
  | some v, l => l.take v.toNat

/-- Embeds `date || today`: JavaScript falsy fallback for a missing/empty date. -/
def resolveDate : Option JSStr → JSStr → JSStr
  | none, today => today
  | some d, today => if d.isEmpty then today else d

/-- Rows of the daily query: filter by platform and date, inner-join to
`users` for the display name. -/
def dailyRows (db : DBState) (p d : JSStr) : List LBRow :=
  (db.counters.filter (fun r => r.platform = p && r.chat_date = d)).filterMap
    (fun r => (lookupUser db r.platform r.user_id).map
      (fun u => ⟨r.user_id, u.display_name, r.message_count, r.message_length⟩))

/-- The counter rows a grouped query ranges over: platform filter plus the
optional `chat_date >= start` filter. -/
def rangeCounters (db : DBState) (p : JSStr) (startDate : Option JSStr) : List CounterRow :=
  db.counters.filter (fun r => r.platform = p &&
    (match startDate with
     | none => true
     | some sd => jsStrLe sd r.chat_date))

/-- Rows of the grouped queries: filter by platform (and start date if
given), group by user, sum counts and lengths, inner-join for the name. -/
def groupedRows (db : DBState) (p : JSStr) (startDate : Option JSStr) : List LBRow :=
  (((rangeCounters db p startDate).map (fun r => r.user_id)).dedup).filterMap (fun u =>
    (lookupUser db p u).map (fun ur =>
      ⟨u, ur.display_name,
        (((rangeCounters db p startDate).filter (fun r => r.user_id = u)).map
          (fun r => r.message_count)).sum,
        (((rangeCounters db p startDate).filter (fun r => r.user_id = u)).map
          (fun r => r.message_length)).sum⟩))

/-- Embeds `getDailyLeaderboard(db, platform, date?, limit)`. -/
def getDailyLeaderboardOp (db : DBState) (today : JSStr) (platform : JSStr)
    (dateOpt : Option JSStr) (limit : Option Int) :
    Except StatsError (List LBRow) × List StatsQuery :=
  match validateStatsParams platform limit with
  | some e => (.error e, [])
  | none =>
    (.ok (takeLimit limit
      (List.insertionSort lbLE (dailyRows db (jsToLower platform)
        (resolveDate dateOpt today)))), [.qDailyLeaderboard])

/-- Embeds `getWeeklyLeaderboard(db, platform, limit)`; `startDate` is the
clock-derived date seven days back. -/
def getWeeklyLeaderboardOp (db : DBState) (startDate : JSStr) (platform : JSStr)
    (limit : Option Int) : Except StatsError (List LBRow) × List StatsQuery :=
  match validateStatsParams platform limit with
  | some e => (.error e, [])
  | none =>
    (.ok (takeLimit limit
      (List.insertionSort lbLE (groupedRows db (jsToLower platform) (some startDate)))),
      [.qWeeklyLeaderboard])

/-- Embeds `getMonthlyLeaderboard(db, platform, limit)`; `startDate` is the first
of the current month. -/
def getMonthlyLeaderboardOp (db : DBState) (startDate : JSStr) (platform : JSStr)
    (limit : Option Int) : Except StatsError (List LBRow) × List StatsQuery :=
  match validateStatsParams platform limit with
  | some e => (.error e, [])
  | none =>
    (.ok (takeLimit limit
      (List.insertionSort lbLE (groupedRows db (jsToLower platform) (some startDate)))),
      [.qMonthlyLeaderboard])

/-- Embeds `getAllTimeLeaderboard(db, platform, limit)`. -/
def getAllTimeLeaderboardOp (db : DBState) (platform : JSStr) (limit : Option Int) :
    Except StatsError (List LBRow) × List StatsQuery :=
  match validateStatsParams platform limit with
  | some e => (.error e, [])
  | none =>
    (.ok (takeLimit limit
      (List.insertionSort lbLE (groupedRows db (jsToLower platform) none))),
      [.qAllTimeLeaderboard])

structure UserStats where
  daily : Int
  weekly : Int
  monthly : Int
  allTime : Int
  rank : Option Nat
deriving DecidableEq

/-- Per-user all-time totals ranked descending by total messages
(`ROW_NUMBER() OVER (ORDER BY total_messages DESC)`; ties in an order the
query leaves unspecified). -/
def rankOf (db : DBState) (p u : JSStr) : Option Nat :=
  let cs := db.counters.filter (fun r => r.platform = p)
  let totals := ((cs.map (fun r => r.user_id)).dedup).map (fun v =>
    (v, ((cs.filter (fun r => r.user_id = v)).map (fun r => r.message_count)).sum))
  let ranked := List.insertionSort (fun a b : JSStr × Int => b.2 ≤ a.2) totals
  match (ranked.map Prod.fst).indexOf? u with
  | some i => some (i + 1)
  | none => none

/-- Embeds `getUserStats(db, platform, userId)`. -/
def getUserStatsOp (db : DBState) (today startOfWeek startOfMonth : JSStr)
    (platform userId : JSStr) : Except StatsError UserStats × List StatsQuery :=
  if !validPlatform platform then (.error .invalidPlatform, [])
  else if userId.isEmpty || (jsTrim userId).isEmpty then (.error .missingUserId, [])
  else
    let p := jsToLower platform
    let u := jsTrim userId
    let mine := db.counters.filter (fun r => r.platform = p && r.user_id = u)
    (.ok
      ⟨(match db.counters.find? (counterKeyB today p u) with
        | some r => r.message_count
        | none => 0),
       ((mine.filter (fun r => jsStrLe startOfWeek r.chat_date)).map
         (fun r => r.message_count)).sum,
       ((mine.filter (fun r => jsStrLe startOfMonth r.chat_date)).map
         (fun r => r.message_count)).sum,
       (mine.map (fun r => r.message_count)).sum,
       rankOf db p u⟩,
     [.qUserDaily, .qUserWeekly, .qUserMonthly, .qUserAllTime, .qUserRank])

structure PlatformStats where
  totalUsers : Nat
  totalMessages : Int
  activeToday : Nat
  activeThisWeek : Nat
deriving DecidableEq

/-- Embeds `getPlatformStats(db, platform)` (validated with the dummy limit 10). -/
def getPlatformStatsOp (db : DBState) (today startOfWeek : JSStr) (platform : JSStr) :
    Except StatsError PlatformStats × List StatsQuery :=
  match validateStatsParams platform (some 10) with
  | some e => (.error e, [])
  | none =>
    let p := jsToLower platform
    (.ok
      ⟨(((db.users.filter (fun r => r.platform = p)).map (fun r => r.user_id)).dedup).length,
       ((db.counters.filter (fun r => r.platform = p)).map (fun r => r.message_count)).sum,
       (((db.counters.filter (fun r => r.platform = p && r.chat_date = today)).map
         (fun r => r.user_id)).dedup).length,
       (((db.counters.filter (fun r => r.platform = p && jsStrLe startOfWeek r.chat_date)).map
         (fun r => r.user_id)).dedup).length⟩,
     [.qTotalUsers, .qTotalMessages, .qActiveToday, .qActiveWeek])

/-- The well-formedness the write path maintains: every counter row's user
exists in `users`. -/
abbrev usersComplete (db : DBState) : Prop :=
  ∀ r ∈ db.counters, (lookupUser db r.platform r.user_id).isSome = true

/-- The `chat_counter` unique key `(chat_date, platform, user_id)`. -/
abbrev countersNodupKeys (db : DBState) : Prop :=
  (db.counters.map (fun r => (r.chat_date, r.platform, r.user_id))).Nodup

/-- Distinct users holding a counter row for the given platform and date. -/
def distinctDailyUsers (db : DBState) (p d : JSStr) : Nat :=
  (((db.counters.filter (fun r => r.platform = p && r.chat_date = d)).map
    (fun r => r.user_id)).dedup).length

/-- Distinct users holding a counter row in the given platform and range. -/
def distinctRangeUsers (db : DBState) (p : JSStr) (startDate : Option JSStr) : Nat :=
  (((rangeCounters db p startDate).map (fun r => r.user_id)).dedup).length

theorem validateStatsParams_some (p : JSStr) (l : Option Int)
    (h : validPlatform p = false ∨ validStatsLimit l = false) :
    ∃ e, validateStatsParams p l = some e := by
  unfold validateStatsParams
  rcases h with h | h
  · exact ⟨.invalidPlatform, by rw [if_pos (by simp [h])]⟩
  · by_cases hp : validPlatform p = true
    · exact ⟨.invalidLimit, by rw [if_neg (by simp [hp]), if_pos (by simp [h])]⟩
    · exact ⟨.invalidPlatform,
        by rw [if_pos (by simp [Bool.eq_false_iff.mpr hp])]⟩

/-- C8: with an invalid platform or an out-of-range limit, every statistics
and leaderboard operation returns a validation error having executed no
database statement at all. -/
theorem stats_rejects_before_query (db : DBState)
    (today startOfWeek startOfMonth : JSStr) (dateOpt : Option JSStr)
    (platform userId : JSStr) (limit : Option Int)
    (hbad : validPlatform platform = false ∨ validStatsLimit limit = false) :
    (∃ e, getDailyLeaderboardOp db today platform dateOpt limit = (.error e, [])) ∧
    (∃ e, getWeeklyLeaderboardOp db startOfWeek platform limit = (.error e, [])) ∧
    (∃ e, getMonthlyLeaderboardOp db startOfMonth platform limit = (.error e, [])) ∧
    (∃ e, getAllTimeLeaderboardOp db platform limit = (.error e, [])) ∧
    (validPlatform platform = false →
      (∃ e, getUserStatsOp db today startOfWeek startOfMonth platform userId =
        (.error e, [])) ∧
      (∃ e, getPlatformStatsOp db today startOfWeek platform = (.error e, []))) := by
  obtain ⟨e, he⟩ := validateStatsParams_some platform limit hbad
  refine ⟨⟨e, ?_⟩, ⟨e, ?_⟩, ⟨e, ?_⟩, ⟨e, ?_⟩, ?_⟩
  · unfold getDailyLeaderboardOp
    rw [he]
  · unfold getWeeklyLeaderboardOp
    rw [he]
  · unfold getMonthlyLeaderboardOp
    rw [he]
  · unfold getAllTimeLeaderboardOp
    rw [he]
  · intro hp
    obtain ⟨e10, he10⟩ := validateStatsParams_some platform (some 10) (Or.inl hp)
    refine ⟨⟨.invalidPlatform, ?_⟩, ⟨e10, ?_⟩⟩
    · unfold getUserStatsOp
      rw [if_pos (by simp [hp])]
    · unfold getPlatformStatsOp
      rw [he10]

/-- C8 witness: platform `"xyz"` and limit `0` are rejected by every
operation with no statement executed. -/
theorem stats_rejects_before_query_witness :
    (∃ e, getDailyLeaderboardOp ⟨[], []⟩ ['d'] ['x', 'y', 'z'] none (some 0) =
      (.error e, [])) ∧
    (∃ e, getWeeklyLeaderboardOp ⟨[], []⟩ ['w'] ['x', 'y', 'z'] (some 0) =
      (.error e, [])) ∧
    (∃ e, getMonthlyLeaderboardOp ⟨[], []⟩ ['m'] ['x', 'y', 'z'] (some 0) =
      (.error e, [])) ∧
    (∃ e, getAllTimeLeaderboardOp ⟨[], []⟩ ['x', 'y', 'z'] (some 0) = (.error e, [])) ∧
    (validPlatform ['x', 'y', 'z'] = false →
      (∃ e, getUserStatsOp ⟨[], []⟩ ['d'] ['w'] ['m'] ['x', 'y', 'z'] ['u'] =
        (.error e, [])) ∧
      (∃ e, getPlatformStatsOp ⟨[], []⟩ ['d'] ['w'] ['x', 'y', 'z'] = (.error e, []))) :=
  stats_rejects_before_query ⟨[], []⟩ ['d'] ['w'] ['m'] none ['x', 'y', 'z'] ['u']
    (some 0) (Or.inl (by decide))

theorem length_filterMap_all_some {α β : Type} (f : α → Option β) (l : List α)
    (h : ∀ x ∈ l, (f x).isSome = true) : (l.filterMap f).length = l.length := by
  induction l with
  | nil => rfl
  | cons a t ih =>
    rw [List.filterMap_cons]
    rcases hf : f a with _ | b
    · exact absurd (hf ▸ h a (List.mem_cons_self a t)) (by simp)
    · simp only [List.length_cons]
      rw [ih (fun x hx => h x (List.mem_cons_of_mem _ hx))]

/-- On rows sharing one date and platform, distinct key triples mean
distinct user ids. -/
theorem nodup_uid_of_nodup_key (d p : JSStr) (l : List CounterRow)
    (hk : (l.map (fun r => (r.chat_date, r.platform, r.user_id))).Nodup)
    (hdp : ∀ r ∈ l, r.chat_date = d ∧ r.platform = p) :
    (l.map (fun r => r.user_id)).Nodup := by
  induction l with
  | nil => simp
  | cons r t ih =>
    simp only [List.map_cons, List.nodup_cons] at hk ⊢
    obtain ⟨hnot, htail⟩ := hk
    refine ⟨?_, ih htail (fun x hx => hdp x (List.mem_cons_of_mem _ hx))⟩
    intro hmem
    rw [List.mem_map] at hmem
    obtain ⟨r', hr', hu⟩ := hmem
    apply hnot
    rw [List.mem_map]
    refine ⟨r', hr', ?_⟩
    obtain ⟨hd1, hp1⟩ := hdp r (List.mem_cons_self _ _)
    obtain ⟨hd2, hp2⟩ := hdp r' (List.mem_cons_of_mem _ hr')
    rw [hd1, hd2, hp1, hp2, hu]

theorem dailyRows_length (db : DBState) (p d : JSStr)
    (hc : usersComplete db) (hk : countersNodupKeys db) :
    (dailyRows db p d).length = distinctDailyUsers db p d := by
  unfold dailyRows distinctDailyUsers
  have hnd : ((db.counters.filter (fun r => r.platform = p && r.chat_date = d)).map
      (fun r => r.user_id)).Nodup := by
    apply nodup_uid_of_nodup_key d p
    · exact List.Nodup.sublist ((List.filter_sublist _).map _) hk
    · intro r hr
      have := List.of_mem_filter hr
      simp only [Bool.and_eq_true, decide_eq_true_eq] at this
      exact ⟨this.2, this.1⟩
  rw [length_filterMap_all_some]
  · rw [List.dedup_eq_self.mpr hnd, List.length_map]
  · intro r hr
    rw [Option.isSome_map']
    exact hc r (List.mem_of_mem_filter hr)

theorem groupedRows_length (db : DBState) (p : JSStr) (sd : Option JSStr)
    (hc : usersComplete db) :
    (groupedRows db p sd).length = distinctRangeUsers db p sd := by
  unfold groupedRows distinctRangeUsers
  apply length_filterMap_all_some
  intro u hu
  rw [Option.isSome_map']
  have hu' := List.mem_dedup.mp hu
  rw [List.mem_map] at hu'
  obtain ⟨r, hr, hru⟩ := hu'
  have h1 := List.of_mem_filter hr
  simp only [Bool.and_eq_true, decide_eq_true_eq] at h1
  rw [← hru, ← h1.1]
  exact hc r (List.mem_of_mem_filter hr)

theorem sorted_takeLimit (limit : Option Int) (l : List LBRow)
    (h : List.Sorted lbLE l) : List.Sorted lbLE (takeLimit limit l) := by
  cases limit with
  | none => exact h
  | some v => exact List.Pairwise.sublist (List.take_sublist _ _) h

/-- C3: on a well-formed store, every leaderboard query succeeds with rows
sorted by message count descending then message length descending, and with
exactly `min limit (distinct qualifying users)` rows. -/
theorem leaderboard_sorted_and_truncated (db : DBState)
    (today startOfWeek startOfMonth : JSStr) (dateOpt : Option JSStr)
    (platform : JSStr) (v : Int)
    (hc : usersComplete db) (hk : countersNodupKeys db)
    (hp : validPlatform platform = true) (hv1 : 1 ≤ v) (hv2 : v ≤ 1000) :
    (∃ lb, getDailyLeaderboardOp db today platform dateOpt (some v) =
        (.ok lb, [.qDailyLeaderboard]) ∧ List.Sorted lbLE lb ∧
        lb.length = min v.toNat
          (distinctDailyUsers db (jsToLower platform) (resolveDate dateOpt today))) ∧
    (∃ lb, getWeeklyLeaderboardOp db startOfWeek platform (some v) =
        (.ok lb, [.qWeeklyLeaderboard]) ∧ List.Sorted lbLE lb ∧
        lb.length = min v.toNat
          (distinctRangeUsers db (jsToLower platform) (some startOfWeek))) ∧
    (∃ lb, getMonthlyLeaderboardOp db startOfMonth platform (some v) =
        (.ok lb, [.qMonthlyLeaderboard]) ∧ List.Sorted lbLE lb ∧
        lb.length = min v.toNat
          (distinctRangeUsers db (jsToLower platform) (some startOfMonth))) ∧
    (∃ lb, getAllTimeLeaderboardOp db platform (some v) =
        (.ok lb, [.qAllTimeLeaderboard]) ∧ List.Sorted lbLE lb ∧
        lb.length = min v.toNat (distinctRangeUsers db (jsToLower platform) none)) := by
  have hval : validateStatsParams platform (some v) = none := by
    unfold validateStatsParams
    rw [if_neg (by simp [hp]), if_neg]
    simp only [validStatsLimit, Bool.not_eq_true, Bool.and_eq_false_iff]
    simp
    omega
  refine ⟨⟨takeLimit (some v) (List.insertionSort lbLE
        (dailyRows db (jsToLower platform) (resolveDate dateOpt today))), ?_, ?_, ?_⟩,
      ⟨takeLimit (some v) (List.insertionSort lbLE
        (groupedRows db (jsToLower platform) (some startOfWeek))), ?_, ?_, ?_⟩,
      ⟨takeLimit (some v) (List.insertionSort lbLE
        (groupedRows db (jsToLower platform) (some startOfMonth))), ?_, ?_, ?_⟩,
      ⟨takeLimit (some v) (List.insertionSort lbLE
        (groupedRows db (jsToLower platform) none)), ?_, ?_, ?_⟩⟩
  · unfold getDailyLeaderboardOp
    rw [hval]
  · exact sorted_takeLimit _ _ (List.sorted_insertionSort lbLE _)
  · show (takeLimit (some v) _).length = _
    unfold takeLimit
    rw [List.length_take, List.length_insertionSort,
      dailyRows_length db _ _ hc hk]
  · unfold getWeeklyLeaderboardOp
    rw [hval]
  · exact sorted_takeLimit _ _ (List.sorted_insertionSort lbLE _)
  · show (takeLimit (some v) _).length = _
    unfold takeLimit
    rw [List.length_take, List.length_insertionSort, groupedRows_length db _ _ hc]
  · unfold getMonthlyLeaderboardOp
    rw [hval]
  · exact sorted_takeLimit _ _ (List.sorted_insertionSort lbLE _)
  · show (takeLimit (some v) _).length = _
    unfold takeLimit
    rw [List.length_take, List.length_insertionSort, groupedRows_length db _ _ hc]
  · unfold getAllTimeLeaderboardOp
    rw [hval]
  · exact sorted_takeLimit _ _ (List.sorted_insertionSort lbLE _)
  · show (takeLimit (some v) _).length = _
    unfold takeLimit
    rw [List.length_take, List.length_insertionSort, groupedRows_length db _ _ hc]

/-- A demonstration store for the leaderboard witness: two telegram users
with one counter row each on day `d`. -/
def lbDemoDB : DBState :=
  ⟨[⟨telegramStr, ['a'], ['A']⟩, ⟨telegramStr, ['b'], ['B']⟩],
   [⟨['d'], telegramStr, ['a'], 3, 10⟩, ⟨['d'], telegramStr, ['b'], 5, 2⟩]⟩

/-- C3 witness at the demonstration store with limit 10. -/
theorem leaderboard_sorted_and_truncated_witness :
    (∃ lb, getDailyLeaderboardOp lbDemoDB ['d'] telegramStr none (some 10) =
        (.ok lb, [.qDailyLeaderboard]) ∧ List.Sorted lbLE lb ∧
        lb.length = min (10 : Int).toNat
          (distinctDailyUsers lbDemoDB (jsToLower telegramStr) (resolveDate none ['d']))) ∧
    (∃ lb, getWeeklyLeaderboardOp lbDemoDB ['0'] telegramStr (some 10) =
        (.ok lb, [.qWeeklyLeaderboard]) ∧ List.Sorted lbLE lb ∧
        lb.length = min (10 : Int).toNat
          (distinctRangeUsers lbDemoDB (jsToLower telegramStr) (some ['0']))) ∧
    (∃ lb, getMonthlyLeaderboardOp lbDemoDB ['0'] telegramStr (some 10) =
        (.ok lb, [.qMonthlyLeaderboard]) ∧ List.Sorted lbLE lb ∧
        lb.length = min (10 : Int).toNat
          (distinctRangeUsers lbDemoDB (jsToLower telegramStr) (some ['0']))) ∧
    (∃ lb, getAllTimeLeaderboardOp lbDemoDB telegramStr (some 10) =
        (.ok lb, [.qAllTimeLeaderboard]) ∧ List.Sorted lbLE lb ∧
        lb.length = min (10 : Int).toNat
          (distinctRangeUsers lbDemoDB (jsToLower telegramStr) none)) :=
  leaderboard_sorted_and_truncated lbDemoDB ['d'] ['0'] ['0'] none telegramStr 10
    (by decide) (by decide) (by decide) (by decide) (by decide)

/-! ### HTTP leaderboard route (`src/index.ts`,
`GET /api/leaderboard/:platform/:period?`)

`parseInt` is embedded with JavaScript semantics (leading whitespace, an
optional sign, a `0x`/`0X` hexadecimal prefix, digits up to the first
non-digit; no digits is `NaN`, modelled as `none`), and
`Math.min(limit, 100)` propagates `NaN`.
-/

def decDigit (c : Char) : Option Nat :=
  if '0' ≤ c ∧ c ≤ '9' then some (c.toNat - 48) else none

def hexDigit (c : Char) : Option Nat :=
  if '0' ≤ c ∧ c ≤ '9' then some (c.toNat - 48)
  else if 'a' ≤ c ∧ c ≤ 'f' then some (c.toNat - 87)
  else if 'A' ≤ c ∧ c ≤ 'F' then some (c.toNat - 55)
  else none

def parseDigits (base : Nat) (dig : Char → Option Nat) :
    JSStr → Option Nat → Option Nat
  | [], acc => acc
  | c :: rest, acc =>
    match dig c with
    | some d => parseDigits base dig rest (some ((acc.getD 0) * base + d))
    | none => acc

def stripSign : JSStr → Bool × JSStr
  | '-' :: r => (true, r)
  | '+' :: r => (false, r)
  | s => (false, s)

def applySign (neg : Bool) (n : Nat) : Int :=
  if neg then -(n : Int) else (n : Int)

/-- JavaScript `parseInt(s)` (no radix argument); `none` is `NaN`. -/
def jsParseInt (s : JSStr) : Option Int :=
  let signed := stripSign (s.dropWhile jsIsWS)
  match signed.2 with
  | '0' :: x :: r =>
    if x = 'x' || x = 'X' then (parseDigits 16 hexDigit r none).map (applySign signed.1)
    else (parseDigits 10 decDigit signed.2 none).map (applySign signed.1)
  | rest => (parseDigits 10 decDigit rest none).map (applySign signed.1)

/-- Embeds `Math.min(a, 100)` with `NaN` in the first slot. -/
def jsMinNaN (x : Option Int) (y : Int) : Option Int :=
  x.map (fun v => min v y)

def dailyStr : JSStr := ['d', 'a', 'i', 'l', 'y']

def weeklyStr : JSStr := ['w', 'e', 'e', 'k', 'l', 'y']

def monthlyStr : JSStr := ['m', 'o', 'n', 't', 'h', 'l', 'y']

def allStr : JSStr := ['a', 'l', 'l']

def codeInvalidPlatform : JSStr :=
  ['I', 'N', 'V', 'A', 'L', 'I', 'D', '_', 'P', 'L', 'A', 'T', 'F', 'O', 'R', 'M']

def codeInvalidPeriod : JSStr :=
  ['I', 'N', 'V', 'A', 'L', 'I', 'D', '_', 'P', 'E', 'R', 'I', 'O', 'D']

def codeInternalError : JSStr :=
  ['I', 'N', 'T', 'E', 'R', 'N', 'A', 'L', '_', 'E', 'R', 'R', 'O', 'R']

/-- Embeds `c.req.param("period") || "all"`. -/
def resolvePeriod : Option JSStr → JSStr
  | none => allStr
  | some p => if p.isEmpty then allStr else p

/-- Embeds `Math.min(parseInt(c.req.query("limit") || "10"), 100)`. -/
def effectiveLimit (limitQ : Option JSStr) : Option Int :=
  jsMinNaN (jsParseInt (match limitQ with
    | none => ['1', '0']
    | some s => if s.isEmpty then ['1', '0'] else s)) 100

/-- The route's response, reduced to the observables the claims are about:
HTTP status, error code, and the echoed `limit` and `count`. -/
structure ApiResponse where
  status : Nat
  code : JSStr
  limit : Option Int
  count : Option Nat
deriving DecidableEq

/-- The `switch (period)` dispatch of the route body. -/
def lbDispatch (db : DBState) (today startOfWeek startOfMonth : JSStr)
    (platform period : JSStr) (limit : Option Int) :
    Except StatsError (List LBRow) × List StatsQuery :=
  if period = dailyStr then getDailyLeaderboardOp db today platform none limit
  else if period = weeklyStr then getWeeklyLeaderboardOp db startOfWeek platform limit
  else if period = monthlyStr then getMonthlyLeaderboardOp db startOfMonth platform limit
  else getAllTimeLeaderboardOp db platform limit

/-- Embeds `GET /api/leaderboard/:platform/:period?`: exact platform check (400),
period check (400), then the stats call; a thrown validation error is
caught and surfaced as 500 `INTERNAL_ERROR`. -/
def leaderboardRoute (db : DBState) (today startOfWeek startOfMonth : JSStr)
    (platform : JSStr) (periodOpt limitQ : Option JSStr) : ApiResponse :=
  if ¬(platform = telegramStr ∨ platform = discordStr) then
    ⟨400, codeInvalidPlatform, none, none⟩
  else if ¬(resolvePeriod periodOpt = dailyStr ∨ resolvePeriod periodOpt = weeklyStr ∨
      resolvePeriod periodOpt = monthlyStr ∨ resolvePeriod periodOpt = allStr) then
    ⟨400, codeInvalidPeriod, none, none⟩
  else
    match (lbDispatch db today startOfWeek startOfMonth platform
        (resolvePeriod periodOpt) (effectiveLimit limitQ)).1 with
    | .ok lb => ⟨200, [], effectiveLimit limitQ, some lb.length⟩
    | .error _ => ⟨500, codeInternalError, none, none⟩

/-- C4 (as stated) is false: `limit=0` is not parseable as a positive
integer, yet the response is 500 `INTERNAL_ERROR`, not 400 — the route
never validates the limit; the stats layer throws and the catch-all maps
it to 500. -/
theorem leaderboard_route_limit_cex :
    leaderboardRoute ⟨[], []⟩ ['d'] ['w'] ['m'] telegramStr none (some ['0']) =
      ⟨500, codeInternalError, none, none⟩ ∧ (500 : Nat) ≠ 400 := by
  exact ⟨by decide, by decide⟩

theorem lbDispatch_ok (db : DBState) (today startOfWeek startOfMonth : JSStr)
    (platform period : JSStr) (limit : Option Int)
    (hval : validateStatsParams platform limit = none) :
    ∃ lb, (lbDispatch db today startOfWeek startOfMonth platform period limit).1 =
      .ok lb := by
  unfold lbDispatch
  split_ifs with h1 h2 h3
  · unfold getDailyLeaderboardOp
    rw [hval]
    exact ⟨_, rfl⟩
  · unfold getWeeklyLeaderboardOp
    rw [hval]
    exact ⟨_, rfl⟩
  · unfold getMonthlyLeaderboardOp
    rw [hval]
    exact ⟨_, rfl⟩
  · unfold getAllTimeLeaderboardOp
    rw [hval]
    exact ⟨_, rfl⟩

theorem lbDispatch_err (db : DBState) (today startOfWeek startOfMonth : JSStr)
    (platform period : JSStr) (limit : Option Int) (e : StatsError)
    (he : validateStatsParams platform limit = some e) :
    (lbDispatch db today startOfWeek startOfMonth platform period limit).1 =
      .error e := by
  unfold lbDispatch
  split_ifs with h1 h2 h3
  · unfold getDailyLeaderboardOp
    rw [he]
  · unfold getWeeklyLeaderboardOp
    rw [he]
  · unfold getMonthlyLeaderboardOp
    rw [he]
  · unfold getAllTimeLeaderboardOp
    rw [he]

/-- C4 amended: the route never returns 400 for a bad limit.  The effective
limit defaults to 10 and is capped at 100; a parsed limit of at least 1
succeeds with HTTP 200 echoing the capped limit; a limit that fails to
parse (`NaN`) or caps below 1 reaches the stats layer, which throws, and
the response is HTTP 500 with code `INTERNAL_ERROR`. -/
theorem leaderboard_route_limit_spec (db : DBState)
    (today startOfWeek startOfMonth : JSStr) (platform : JSStr)
    (periodOpt limitQ : Option JSStr)
    (hp : platform = telegramStr ∨ platform = discordStr)
    (hper : resolvePeriod periodOpt = dailyStr ∨ resolvePeriod periodOpt = weeklyStr ∨
      resolvePeriod periodOpt = monthlyStr ∨ resolvePeriod periodOpt = allStr) :
    effectiveLimit none = some 10 ∧
    (∀ v, effectiveLimit limitQ = some v → v ≤ 100) ∧
    (∀ v, effectiveLimit limitQ = some v → 1 ≤ v →
      (leaderboardRoute db today startOfWeek startOfMonth platform periodOpt
        limitQ).status = 200 ∧
      (leaderboardRoute db today startOfWeek startOfMonth platform periodOpt
        limitQ).limit = some v) ∧
    ((effectiveLimit limitQ = none ∨ (∃ v, effectiveLimit limitQ = some v ∧ v < 1)) →
      (leaderboardRoute db today startOfWeek startOfMonth platform periodOpt
        limitQ).status = 500 ∧
      (leaderboardRoute db today startOfWeek startOfMonth platform periodOpt
        limitQ).code = codeInternalError) := by
  have hplat : validPlatform platform = true := by
    rcases hp with h | h <;> subst h <;> decide
  have hcap : ∀ v, effectiveLimit limitQ = some v → v ≤ 100 := by
    intro v hv
    unfold effectiveLimit jsMinNaN at hv
    rw [Option.map_eq_some'] at hv
    obtain ⟨w, -, hw⟩ := hv
    omega
  refine ⟨by decide, hcap, ?_, ?_⟩
  · intro v hv h1v
    have h100 : v ≤ 100 := hcap v hv
    have hval : validateStatsParams platform (effectiveLimit limitQ) = none := by
      unfold validateStatsParams
      rw [if_neg (by simp [hplat]), if_neg]
      rw [hv]
      simp only [validStatsLimit, Bool.not_eq_true, Bool.and_eq_false_iff]
      simp
      omega
    obtain ⟨lb, hlb⟩ := lbDispatch_ok db today startOfWeek startOfMonth platform
      (resolvePeriod periodOpt) (effectiveLimit limitQ) hval
    unfold leaderboardRoute
    rw [if_neg (not_not_intro hp), if_neg (not_not_intro hper), hlb]
    exact ⟨rfl, hv⟩
  · intro hbad
    have hlim : validStatsLimit (effectiveLimit limitQ) = false := by
      rcases hbad with h | ⟨v, hv, hv1⟩
      · rw [h]
        rfl
      · rw [hv]
        simp only [validStatsLimit, Bool.and_eq_false_iff]
        left
        simpa using (by omega : ¬ (1 : Int) ≤ v)
    obtain ⟨e, he⟩ := validateStatsParams_some platform (effectiveLimit limitQ)
      (Or.inr hlim)
    have herr := lbDispatch_err db today startOfWeek startOfMonth platform
      (resolvePeriod periodOpt) (effectiveLimit limitQ) e he
    unfold leaderboardRoute
    rw [if_neg (not_not_intro hp), if_neg (not_not_intro hper), herr]
    exact ⟨rfl, rfl⟩

/-- C4 amended witness at platform `telegram`, default period, `limit=500`:
capped to 100 and served with HTTP 200. -/
theorem leaderboard_route_limit_spec_witness :
    effectiveLimit none = some 10 ∧
    (∀ v, effectiveLimit (some ['5', '0', '0']) = some v → v ≤ 100) ∧
    (∀ v, effectiveLimit (some ['5', '0', '0']) = some v → 1 ≤ v →
      (leaderboardRoute ⟨[], []⟩ ['d'] ['w'] ['m'] telegramStr none
        (some ['5', '0', '0'])).status = 200 ∧
      (leaderboardRoute ⟨[], []⟩ ['d'] ['w'] ['m'] telegramStr none
        (some ['5', '0', '0'])).limit = some v) ∧
    ((effectiveLimit (some ['5', '0', '0']) = none ∨
        (∃ v, effectiveLimit (some ['5', '0', '0']) = some v ∧ v < 1)) →
      (leaderboardRoute ⟨[], []⟩ ['d'] ['w'] ['m'] telegramStr none
        (some ['5', '0', '0'])).status = 500 ∧
      (leaderboardRoute ⟨[], []⟩ ['d'] ['w'] ['m'] telegramStr none
        (some ['5', '0', '0'])).code = codeInternalError) :=
  leaderboard_route_limit_spec ⟨[], []⟩ ['d'] ['w'] ['m'] telegramStr none
    (some ['5', '0', '0']) (Or.inl rfl) (by decide)
